import Mathlib

/-!
Verification of the evo-cloud/logs emission pipeline against its
natural-language specification.  The Go source is shallowly embedded:
pure fragments become Lean functions, stateful loops become explicit
state-passing functions, Go machine integers become `Nat`/`Int` with
explicit wrap-around where it matters.  Byte strings are `List Nat`
with every element below 256.

Layout: all definitions come first, then the theorems.
-/

namespace EvoLogs

/-! ## Byte-level helpers (encoding/binary, little endian) -/

/-- `binary.LittleEndian.PutUint32`: four bytes, least significant first.
The Go call truncates its argument to 32 bits. -/
def putUint32LE (n : Nat) : List Nat :=
  [n % 256, n / 256 % 256, n / 65536 % 256, n / 16777216 % 256]

/-- `binary.LittleEndian.Uint32` on the first four bytes of a list. -/
def readUint32LE (b : List Nat) : Nat :=
  match b with
  | b0 :: b1 :: b2 :: b3 :: _ => b0 + b1 * 256 + b2 * 65536 + b3 * 16777216
  | _ => 0

/-- Go `int32(u)` conversion of a `uint32` value: two's complement. -/
def toInt32 (u : Nat) : Int :=
  if u < 2 ^ 31 then (u : Int) else (u : Int) - 2 ^ 32

/-! ## Record data model (proto/logs/*.proto, generated Go structs)

Float and double attribute payloads are carried as their raw IEEE bit
patterns (`Nat`), which is exactly what travels on the wire. -/

/-- `Value`: the oneof of typed attribute payloads. -/
inductive Value where
  | boolValue (b : Bool)
  | intValue (i : Int)
  | floatValue (bits : Nat)
  | doubleValue (bits : Nat)
  | strValue (s : String)
  | json (s : String)
  | protoBytes (bytes : List Nat)
  deriving Repr, DecidableEq

/-- `SpanContext`: 16-byte trace id plus 64-bit span id. -/
structure SpanContext where
  traceId : List Nat
  spanId : Nat
  deriving Repr, DecidableEq

/-- `Link`: a reference to another span. -/
structure Link where
  spanContext : Option SpanContext
  type : Nat
  attributes : List (String × Value)
  deriving Repr, DecidableEq

/-- `Trace.SpanStart` event payload. -/
structure SpanStartEvent where
  name : String
  kind : Nat
  links : List Link
  deriving Repr, DecidableEq

/-- The `oneof event` of a `Trace`: absent, SpanStart, or SpanEnd. -/
inductive TraceEvent where
  | noEvent
  | spanStart (ev : SpanStartEvent)
  | spanEnd
  deriving Repr, DecidableEq

/-- `Trace`: span context plus optional span event. -/
structure Trace where
  spanContext : Option SpanContext
  event : TraceEvent
  deriving Repr, DecidableEq

/-- `LogEntry`: one timestamped structured record. -/
structure LogEntry where
  nanoTs : Int
  trace : Option Trace
  level : Nat
  location : String
  message : String
  attributes : List (String × Value)
  deriving Repr, DecidableEq

/-- `Span`: the assembled output record. -/
structure Span where
  context : Option SpanContext
  name : String
  kind : Nat
  startNs : Int
  duration : Int
  attributes : List (String × Value)
  links : List Link
  logs : List LogEntry
  deriving Repr, DecidableEq

/-- Go `entry.GetTrace().GetSpanContext()`: nil-safe field access. -/
def getSpanContext (e : LogEntry) : Option SpanContext :=
  match e.trace with
  | none => none
  | some t => t.spanContext

/-- Go `entry.GetTrace().GetEvent()`: nil trace means no event. -/
def getEvent (e : LogEntry) : TraceEvent :=
  match e.trace with
  | none => TraceEvent.noEvent
  | some t => t.event

/-! ## Hex encoding and trace/span id display (src/pkg/logs/logger.go) -/

/-- One lowercase hex digit. -/
def hexDigitChar (n : Nat) : Char :=
  if n < 10 then Char.ofNat (48 + n) else Char.ofNat (87 + n)

/-- `hex.EncodeToString`: two lowercase digits per byte. -/
def hexEncodeBytes (bs : List Nat) : String :=
  String.mk (bs.flatMap fun b => [hexDigitChar (b % 256 / 16), hexDigitChar (b % 16)])

/-- Value of one hex character, accepting both cases (as Go's decoders do). -/
def hexCharVal (c : Char) : Option Nat :=
  let n := c.toNat
  if 48 ≤ n ∧ n ≤ 57 then some (n - 48)
  else if 97 ≤ n ∧ n ≤ 102 then some (n - 87)
  else if 65 ≤ n ∧ n ≤ 70 then some (n - 55)
  else none

/-- `hex.DecodeString`: pairs of hex characters; odd length or a bad
character is an error. -/
def hexDecode : List Char → Option (List Nat)
  | [] => some []
  | [_] => none
  | c1 :: c2 :: rest =>
    match hexCharVal c1, hexCharVal c2, hexDecode rest with
    | some h, some l, some bs => some ((h * 16 + l) :: bs)
    | _, _, _ => none

/-- `IsTraceIDValid`: exactly 16 bytes. -/
def isTraceIDValid (id : List Nat) : Bool := id.length = 16

/-- `ParseTraceID`: hex-decode, validate the length, then swap bytes
`i ↔ 15-i` (a full reversal of the 16 bytes).  Errors are `none`. -/
def parseTraceID (s : String) : Option (List Nat) :=
  match hexDecode s.data with
  | none => none
  | some bs => if isTraceIDValid bs then some bs.reverse else none

/-- `TraceIDStringFrom`: empty for an invalid id; otherwise the byte-order
is reversed and hex-encoded in lowercase. -/
def traceIDStringFrom (ctx : Option SpanContext) : String :=
  let id := match ctx with
    | none => []
    | some c => c.traceId
  if isTraceIDValid id then hexEncodeBytes id.reverse else ""

/-- Minimal lowercase hex digits, most significant first; structural
recursion on a fuel bound so that it reduces inside the kernel. -/
def natHexCore : Nat → Nat → List Char
  | 0, _ => []
  | fuel + 1, n =>
    if n < 16 then [hexDigitChar n]
    else natHexCore fuel (n / 16) ++ [hexDigitChar (n % 16)]

/-- Minimal lowercase hex digits of `n`, most significant first. -/
def natHex (n : Nat) : List Char := natHexCore (n + 1) n

/-- `fmt.Sprintf("%016x", v)`: zero-padded to 16 characters. -/
def hexPad16 (v : Nat) : String :=
  String.mk (List.replicate (16 - (natHex v).length) '0' ++ natHex v)

/-- `SpanIDStringFrom`: empty for a zero id, else `%016x`. -/
def spanIDStringFrom (ctx : Option SpanContext) : String :=
  let v := match ctx with
    | none => 0
    | some c => c.spanId
  if v = 0 then "" else hexPad16 v

/-- Accumulator loop of `strconv.ParseUint(str, 16, 64)`: digit by digit,
failing on a non-hex character or on exceeding 64 bits. -/
def parseUintHexGo : List Char → Nat → Option Nat
  | [], acc => some acc
  | c :: rest, acc =>
    match hexCharVal c with
    | none => none
    | some d =>
      if acc * 16 + d < 2 ^ 64 then parseUintHexGo rest (acc * 16 + d)
      else none

/-- `strconv.ParseUint(str, 16, 64)`; the empty string is an error. -/
def parseSpanID (s : String) : Option Nat :=
  if s.data.isEmpty then none else parseUintHexGo s.data 0

/-- `IDStringFrom`: `<trace>/<span>`, or empty if either part is empty. -/
def idStringFrom (ctx : Option SpanContext) : String :=
  let tid := traceIDStringFrom ctx
  let sid := spanIDStringFrom ctx
  if tid = "" ∨ sid = "" then "" else tid ++ "/" ++ sid

/-! ## Span assembler (src/go/logs/assembler.go)

The `sync.Map` keyed by id string is modelled as an association list with
map semantics: store replaces, load finds, remove deletes. -/

/-- Map store: bind `k` to `v`, dropping any previous binding. -/
def assocStore {β : Type} (m : List (String × β)) (k : String) (v : β) :
    List (String × β) :=
  (k, v) :: m.filter fun p => !(p.1 == k)

/-- Map removal. -/
def assocRemove {β : Type} (m : List (String × β)) (k : String) :
    List (String × β) :=
  m.filter fun p => !(p.1 == k)

/-- Map lookup. -/
def assocLoad {β : Type} (m : List (String × β)) (k : String) : Option β :=
  (m.find? fun p => p.1 == k).map (·.2)

/-- The assembler's state: open spans keyed by id string. -/
abbrev SpanMap : Type := List (String × Span)

/-- `SpanAssembler.AddLogEntry`: dispatch on the trace event.  Entries
whose span context produces no id string are ignored.  SpanStart opens
(or overwrites) the record; a plain entry appends to the open span's
logs; SpanEnd appends, computes the duration, removes the mapping and
returns the completed span. -/
def addLogEntry (m : SpanMap) (entry : LogEntry) : Option Span × SpanMap :=
  let id := idStringFrom (getSpanContext entry)
  if id = "" then (none, m)
  else
    match getEvent entry with
    | TraceEvent.spanStart ev =>
      let span : Span :=
        { context := getSpanContext entry
          name := ev.name
          kind := ev.kind
          startNs := entry.nanoTs
          duration := 0
          attributes := entry.attributes
          links := ev.links
          logs := [entry] }
      (none, assocStore m id span)
    | TraceEvent.spanEnd =>
      match assocLoad m id with
      | none => (none, m)
      | some span =>
        (some { span with
                  logs := span.logs ++ [entry]
                  duration := entry.nanoTs - span.startNs },
          assocRemove m id)
    | TraceEvent.noEvent =>
      match assocLoad m id with
      | none => (none, m)
      | some span =>
        (none, assocStore m id { span with logs := span.logs ++ [entry] })

/-- Feeding a list of entries through the assembler, collecting the
per-call results. -/
def addLogEntries (m : SpanMap) : List LogEntry → List (Option Span) × SpanMap
  | [] => ([], m)
  | e :: rest =>
    let (r, m1) := addLogEntry m e
    let (rs, m2) := addLogEntries m1 rest
    (r :: rs, m2)

/-! ## Chunked emitter (src/go/logs/default.go) -/

/-- The buffer's linked `record`: an entry plus its encoded proto size. -/
structure Rec where
  entry : LogEntry
  size : Nat
  deriving Repr, DecidableEq

/-- Sum of encoded sizes, as the Go `int` arithmetic sees it. -/
def sumSize : List Rec → Int
  | [] => 0
  | r :: rest => (r.size : Int) + sumSize rest

/-- `ChunkInfo`.  `firstNanoTS`/`lastNanoTS` keep Go's zero value unless
assigned. -/
structure ChunkInfo where
  totalSize : Int
  numEntries : Nat
  firstNanoTS : Int
  lastNanoTS : Int
  deriving Repr, DecidableEq

/-- The walk inside `fetchChunk`: accumulate records while the running
total stays below `ChunkSize` and the next record still fits.  Returns
the detached chunk, the remaining buffer, the accumulated `TotalSize`
and `NumEntries`. -/
def fetchChunkGo (buf : List Rec) (total chunkSize : Int) :
    List Rec × List Rec × Int × Nat :=
  match buf with
  | [] => ([], [], total, 0)
  | r :: rest =>
    if total < chunkSize then
      if total + (r.size : Int) > chunkSize then ([], r :: rest, total, 0)
      else
        let (c, rem, t, n) := fetchChunkGo rest (total + (r.size : Int)) chunkSize
        (r :: c, rem, t, n + 1)
    else ([], r :: rest, total, 0)

/-- `ChunkedEmitter.fetchChunk`: detach a prefix of the buffer as the next
chunk.  Only `TotalSize` and `NumEntries` of the `ChunkInfo` are ever
assigned; the timestamp fields stay zero. -/
def fetchChunk (buf : List Rec) (chunkSize : Int) :
    List Rec × List Rec × ChunkInfo :=
  let (c, rem, t, n) := fetchChunkGo buf 0 chunkSize
  (c, rem, { totalSize := t, numEntries := n, firstNanoTS := 0, lastNanoTS := 0 })

/-- The discard loop of `emitChunks`: advance past the received prefix
(`nano_ts ≤ lastTS`), keeping `info.TotalSize` in step. -/
def discardReceived (head : List Rec) (infoTotal lastTS : Int) :
    List Rec × Int :=
  match head with
  | [] => ([], infoTotal)
  | r :: rest =>
    if r.entry.nanoTs ≤ lastTS then
      discardReceived rest (infoTotal - (r.size : Int)) lastTS
    else (r :: rest, infoTotal)

/-- The drop-oldest loop shared by `EmitLogEntry` (buffer overrun) and the
`emitChunks` requeue block: drop head records while the running total
exceeds `MaxSize`.  Returns the surviving list, the new total and the
lost byte count. -/
def dropOldest (buf : List Rec) (total maxSize : Int) :
    List Rec × Int × Int :=
  match buf with
  | [] => ([], total, 0)
  | r :: rest =>
    if total > maxSize then
      let (b, t, lost) := dropOldest rest (total - (r.size : Int)) maxSize
      (b, t, lost + (r.size : Int))
    else (r :: rest, total, 0)

/-- The tail of `emitChunks` after the stream attempt: discard records the
streamer acknowledged, then requeue the rest in front of the buffer,
dropping oldest remaining records while the recomputed total exceeds
`MaxSize`.  Returns the new buffer and the new `totalSize` field.
`bufTotal` is the emitter's `totalSize` at requeue time (which, as in the
source, still includes the detached chunk's bytes). -/
def emitChunksAfterStream (chunk : List Rec) (infoTotal lastTS : Int)
    (buffer : List Rec) (bufTotal maxSize : Int) : List Rec × Int :=
  let (head1, infoTotal1) := discardReceived chunk infoTotal lastTS
  match head1 with
  | [] => (buffer, bufTotal)
  | _ :: _ =>
    let (survivors, total1, _) := dropOldest head1 (infoTotal1 + bufTotal) maxSize
    match survivors with
    | [] => (buffer, bufTotal)
    | _ :: _ => (survivors ++ buffer, total1)

/-- One `emitChunks` cycle against a streamer that (when reached) ends with
`StreamEnd` yielding `lastTS`; a `StartStreamInChunk` failure leaves the
local `lastTS` at zero.  Returns the chunk handed to the per-entry stream
loop, the new buffer and the new total. -/
def emitChunksStep (buffer : List Rec) (bufTotal maxSize chunkSize : Int)
    (startErr : Bool) (lastTS : Int) : List Rec × List Rec × Int :=
  let (chunk, rest, info) := fetchChunk buffer chunkSize
  if info.numEntries = 0 then (chunk, rest, bufTotal)
  else
    let ts := if startErr then 0 else lastTS
    let (nb, nt) := emitChunksAfterStream chunk info.totalSize ts rest bufTotal maxSize
    (chunk, nb, nt)

/-- `ChunkedEmitter.EmitLogEntry` under the buffer lock: append the record,
grow the total, then drop oldest while over `MaxSize`.  Returns the new
buffer, the new total and the lost byte count. -/
def emitLogEntryGo (buffer : List Rec) (total : Int) (rec : Rec)
    (maxSize : Int) : List Rec × Int × Int :=
  dropOldest (buffer ++ [rec]) (total + (rec.size : Int)) maxSize

/-! ## Ingress server (src/go/server/ingress.go) -/

/-- `maxPendingAcknowledges`. -/
def maxPendingAcknowledges : Nat := 8

/-- Per-stream receiver state. -/
structure IngressState where
  receivedNanoTS : Int
  ackPending : Nat
  deriving Repr, DecidableEq

/-- `IngressBatch` wire message. -/
structure IngressBatch where
  entries : List LogEntry
  chunkEnd : Bool
  deriving Repr, DecidableEq

/-- The entry loop of `handleMessage`: write entries until the first
error; each success updates `receivedNanoTS` and bumps `ackPending`.
The writer is a parameter (the `BatchWriter` is an interface); `some err`
models a failed `WriteLogEntry`. -/
def writeLoop (w : LogEntry → Option String) :
    List LogEntry → IngressState → IngressState × Option String
  | [], st => (st, none)
  | e :: rest, st =>
    match w e with
    | some err => (st, some err)
    | none =>
      writeLoop w rest
        { receivedNanoTS := e.nanoTs, ackPending := st.ackPending + 1 }

/-- `ingressReceiver.handleMessage` after a successful `WriteBatch`: run
the write loop, then send `IngressEvent{last_nano_ts = receivedNanoTS}`
and reset `ackPending` when `chunk_end` is set, the pending count exceeds
`maxPendingAcknowledges`, or an error occurred.  Returns the new state,
the `last_nano_ts` values of the events sent, and the propagated error. -/
def handleMessage (w : LogEntry → Option String) (st : IngressState)
    (msg : IngressBatch) : IngressState × List Int × Option String :=
  let (st1, err) := writeLoop w msg.entries st
  if msg.chunkEnd ∨ st1.ackPending > maxPendingAcknowledges ∨ err.isSome then
    ({ st1 with ackPending := 0 }, [st1.receivedNanoTS], err)
  else (st1, [], err)

/-! ## Logger heap model (src/pkg/logs/logger.go)

Attribute maps are mutable Go maps shared by reference; to state the
frame conditions of the claim the maps live in a heap indexed by `Nat`
references, and loggers live in a parallel store. -/

/-- An attribute map's contents. -/
abbrev AttrMap : Type := List (String × Value)

/-- Insert every attribute in order (Go `SetAttrs` map assignments). -/
def attrSetAll (m : AttrMap) (attrs : List (String × Value)) : AttrMap :=
  attrs.foldl (fun acc p => assocStore acc p.1 p.2) m

/-- The span data a logger holds (the parts the claim observes). -/
structure SpanInfoM where
  name : String
  context : Option SpanContext
  deriving Repr, DecidableEq

/-- One `Logger` value: parent reference, optional span, attribute-map
reference. -/
structure LoggerRec where
  parent : Option Nat
  span : Option SpanInfoM
  attrsRef : Nat
  deriving Repr, DecidableEq

/-- The heap: attribute maps and loggers, both addressed by index. -/
structure LoggerHeap where
  maps : List AttrMap
  loggers : List LoggerRec

/-- Dereference an attribute map. -/
def heapMap (h : LoggerHeap) (i : Nat) : AttrMap := h.maps.getD i []

/-- Dereference a logger. -/
def heapLogger (h : LoggerHeap) (i : Nat) : LoggerRec :=
  h.loggers.getD i { parent := none, span := none, attrsRef := 0 }

/-- `Logger.New`: a child with a *fresh* attribute map holding a copy of
the parent's attributes extended by `attrs`, the parent's span, and a
parent back-reference.  Allocates at the end of both stores. -/
def loggerNew (h : LoggerHeap) (li : Nat) (attrs : List (String × Value)) :
    LoggerHeap × Nat :=
  let l := heapLogger h li
  let newMap := attrSetAll (heapMap h l.attrsRef) attrs
  let child : LoggerRec :=
    { parent := some li, span := l.span, attrsRef := h.maps.length }
  ({ maps := h.maps ++ [newMap], loggers := h.loggers ++ [child] },
    h.loggers.length)

/-- `Logger.SetAttrs`: mutate the logger's own attribute map in place. -/
def loggerSetAttrs (h : LoggerHeap) (li : Nat)
    (attrs : List (String × Value)) : LoggerHeap :=
  let l := heapLogger h li
  { h with
      maps := h.maps.set l.attrsRef (attrSetAll (heapMap h l.attrsRef) attrs) }

/-- `Logger.StartSpanDepth` for `SpanInfo{Name: name}` (the shape
`StartSpan(ctx, name)` passes): create the child via `New`, then give it
a fresh span whose trace id is inherited from the parent's span context
when present (else the freshly generated id) and whose span id is the
freshly generated one.  The SpanStart entry emission goes to the sink and
does not touch the heap.  `startSpanTraceId` is the trace id the new span
context carries. -/
def startSpanTraceId (h : LoggerHeap) (li : Nat) (freshTrace : List Nat) :
    List Nat :=
  match (heapLogger h li).span with
  | some si =>
    match si.context with
    | some c => c.traceId
    | none => []
  | none => freshTrace

/-- The span value `StartSpanDepth` attaches to the child. -/
def startSpanValue (h : LoggerHeap) (li : Nat) (name : String)
    (freshTrace : List Nat) (freshSpan : Nat) : SpanInfoM :=
  { name := name
    context := some { traceId := startSpanTraceId h li freshTrace
                      spanId := freshSpan } }

def startSpanDepth (h : LoggerHeap) (li : Nat) (name : String)
    (attrs : List (String × Value)) (freshTrace : List Nat)
    (freshSpan : Nat) : LoggerHeap × Nat :=
  let (h1, ci) := loggerNew h li attrs
  let child := heapLogger h1 ci
  let child1 :=
    { child with span := some (startSpanValue h li name freshTrace freshSpan) }
  ({ h1 with loggers := h1.loggers.set ci child1 }, ci)

/-- `Use(ctx)`: the logger attached to the context, else the default. -/
def ctxUse (ctxLogger : Option Nat) (dflt : Nat) : Nat :=
  ctxLogger.getD dflt

/-- `Logger.EndSpanDepth` (emission aside): a logger without a span
returns itself; otherwise the parent, or the default logger when the
parent reference is nil. -/
def endSpanDepth (h : LoggerHeap) (li : Nat) (dflt : Nat) : Nat :=
  let l := heapLogger h li
  match l.span with
  | none => li
  | some _ =>
    match l.parent with
    | none => dflt
    | some p => p

/-! ## Location filter (src/go/source/filter.go) -/

/-- Does `sub` start `l`? -/
def listStartsWith : List Char → List Char → Bool
  | [], _ => true
  | _ :: _, [] => false
  | a :: s, b :: t => a == b && listStartsWith s t

/-- Substring test on character lists. -/
def listContainsSub (l sub : List Char) : Bool :=
  match l with
  | [] => sub.isEmpty
  | _ :: t => listStartsWith sub l || listContainsSub t sub

/-- `strings.Contains`. -/
def strContains (s sub : String) : Bool := listContainsSub s.data sub.data

/-- `LocationFilter` configuration. -/
structure LocationFilter where
  containsAny : List String
  containsAll : List String
  notContains : List String
  deriving Repr, DecidableEq

/-- `LocationFilter.FilterLogEntry` as written in the source: note that
the `ContainsAll` and `NotContains` blocks iterate `f.ContainsAny`. -/
def filterLocationCode (f : LocationFilter) (loc : String) : Bool :=
  if f.containsAny.length > 0 &&
      !(f.containsAny.any fun s => strContains loc s) then false
  else if f.containsAll.length > 0 &&
      !(f.containsAny.all fun s => strContains loc s) then false
  else if f.notContains.length > 0 &&
      (f.containsAny.any fun s => strContains loc s) then false
  else true

/-- The filter applied to an entry's location, as `FilterLogEntry` does. -/
def filterLogEntryLocation (f : LocationFilter) (e : LogEntry) : Bool :=
  filterLocationCode f e.location

/-- Modelled from the spec: the *intended* location-filter semantics of
§4.10 — at least one `ContainsAny` substring (when non-empty), all
`ContainsAll` substrings (when non-empty), and no `NotContains` substring
(when non-empty) occur in the location. -/
def filterLocationIntended (f : LocationFilter) (loc : String) : Bool :=
  (f.containsAny.isEmpty || f.containsAny.any fun s => strContains loc s) &&
  (f.containsAll.isEmpty || f.containsAll.all fun s => strContains loc s) &&
  (f.notContains.isEmpty || f.notContains.all fun s => !(strContains loc s))

/-! ## Blob framing (src/pkg/blob/file.go and src/go/blob/reader.go) -/

/-- `EncodeToRawRecord` flattened to the bytes it puts on the wire:
4-byte little-endian head holding the payload size, the payload, zero
padding up to a 4-byte boundary, and a 4-byte tail repeating the head. -/
def encodeToRawRecordBytes (data : List Nat) : List Nat :=
  let bodySize := data.length
  let head := putUint32LE bodySize
  if bodySize % 4 ≠ 0 then
    head ++ data ++ List.replicate (4 - bodySize % 4) 0 ++ head
  else
    head ++ data ++ head

/-- Errors produced by `Reader.Read` in src/go/blob/reader.go. -/
inductive ReadErr where
  | eof : ReadErr
  | badHeadSize (size : Int) : ReadErr
  | badTail (tailSize size : Int) : ReadErr
  deriving Repr, DecidableEq

/-- `Reader.Read` of src/go/blob/reader.go, on an in-memory byte stream.
Returns the payload bytes handed to `proto.Unmarshal` together with the
unread remainder of the stream.  Short reads surface as `eof`
(`io.ReadFull` returns an error), a non-positive `int32` head as
`badHeadSize`, and a tail that differs from the head as `badTail`
(both wrap `ErrBadRecord`). -/
def readerRead (s : List Nat) : Except ReadErr (List Nat × List Nat) :=
  if s.length < 4 then .error .eof
  else
    let size : Int := toInt32 (readUint32LE (s.take 4))
    if size ≤ 0 then .error (.badHeadSize size)
    else
      let sizeN : Nat := size.toNat
      let paddedSize : Nat := if sizeN % 4 ≠ 0 then sizeN + (4 - sizeN % 4) else sizeN
      let s1 := s.drop 4
      if s1.length < paddedSize + 4 then .error .eof
      else
        let buf := s1.take (paddedSize + 4)
        let tailSize : Int := toInt32 (readUint32LE (buf.drop paddedSize))
        if tailSize ≠ size then .error (.badTail tailSize size)
        else .ok (buf.take sizeN, s1.drop (paddedSize + 4))

/-- Padding the blob format appends after the payload: 0 to 3 zero bytes. -/
def framePad (n : Nat) : Nat := (4 - n % 4) % 4

/-! ## Concrete sample data used by counterexamples and witnesses -/

/-- An entry with nothing but a timestamp. -/
def plainEntry (ts : Int) : LogEntry :=
  { nanoTs := ts, trace := none, level := 0, location := "", message := ""
    attributes := [] }

/-- A buffered record of a given timestamp and encoded size. -/
def plainRec (ts : Int) (size : Nat) : Rec :=
  { entry := plainEntry ts, size := size }

/-- A concrete span context: all-zero trace id, span id 1. -/
def demoCtx : Option SpanContext :=
  some { traceId := List.replicate 16 0, spanId := 1 }

/-- A concrete SpanStart entry in `demoCtx` at `nano_ts = 100`. -/
def demoStart : LogEntry :=
  { nanoTs := 100
    trace := some { spanContext := demoCtx
                    event := TraceEvent.spanStart
                      { name := "s", kind := 0, links := [] } }
    level := 0, location := "", message := "", attributes := [] }

/-- A concrete one-logger heap: one empty attribute map, one root logger. -/
def demoHeap : LoggerHeap :=
  { maps := [[]]
    loggers := [{ parent := none, span := none, attrsRef := 0 }] }

/-- A concrete SpanEnd entry in `demoCtx` at `nano_ts = 150`. -/
def demoEnd : LogEntry :=
  { nanoTs := 150
    trace := some { spanContext := demoCtx, event := TraceEvent.spanEnd }
    level := 0, location := "", message := "", attributes := [] }

end EvoLogs

namespace EvoLogs

/-! ## Theorems: byte helpers and blob framing -/

theorem readUint32LE_putUint32LE (n : Nat) (rest : List Nat) :
    readUint32LE (putUint32LE n ++ rest) = n % 2 ^ 32 := by
  simp only [putUint32LE, readUint32LE, List.cons_append]
  omega

theorem putUint32LE_length (n : Nat) : (putUint32LE n).length = 4 := rfl

theorem encodeToRawRecordBytes_eq (data : List Nat) :
    encodeToRawRecordBytes data =
      putUint32LE data.length ++
        ((data ++ List.replicate (framePad data.length) 0) ++ putUint32LE data.length) := by
  unfold encodeToRawRecordBytes framePad
  rcases Nat.lt_or_ge (data.length % 4) 1 with h | h
  · have h0 : data.length % 4 = 0 := by omega
    simp [h0]
  · have h0 : data.length % 4 ≠ 0 := by omega
    have h4 : (4 - data.length % 4) % 4 = 4 - data.length % 4 := by omega
    simp [h0, h4, List.append_assoc]

/-- The total on-wire size of an encoded record is
`4 + payload + pad + 4` with `pad < 4`. -/
theorem encodeToRawRecordBytes_length (data : List Nat) :
    (encodeToRawRecordBytes data).length =
      4 + data.length + framePad data.length + 4 ∧ framePad data.length < 4 := by
  rw [encodeToRawRecordBytes_eq]
  refine ⟨?_, ?_⟩
  · simp [putUint32LE]; omega
  · unfold framePad; omega

theorem readUint32LE_put (n : Nat) : readUint32LE (putUint32LE n) = n % 2 ^ 32 := by
  simp only [putUint32LE, readUint32LE]
  omega

/-- Reading a record shape: head claiming `n` payload bytes, payload of
length `n`, padding, a 4-byte tail claiming `m` bytes, then the rest of
the stream.  The read succeeds exactly when the tail repeats the head. -/
theorem readerRead_shape (n m : Nat) (p padl rest : List Nat)
    (hn : p.length = n) (hpos : 0 < n) (hlt : n < 2 ^ 31) (hm : m < 2 ^ 31)
    (hpadl : padl.length = if n % 4 ≠ 0 then 4 - n % 4 else 0) :
    readerRead (putUint32LE n ++ (p ++ padl ++ putUint32LE m ++ rest)) =
      if m = n then .ok (p, rest) else .error (.badTail (m : Int) (n : Int)) := by
  set t := p ++ padl ++ putUint32LE m ++ rest with ht
  have hXlen : ((p ++ padl) ++ putUint32LE m).length = n + padl.length + 4 := by
    simp [putUint32LE, hn]
    omega
  have htlen : t.length = n + padl.length + 4 + rest.length := by
    rw [ht]
    simp [putUint32LE, hn]
    omega
  have c1 : ¬((putUint32LE n ++ t).length < 4) := by
    rw [List.length_append, putUint32LE_length]; omega
  have e1 : (putUint32LE n ++ t).take 4 = putUint32LE n :=
    List.take_left' (putUint32LE_length n)
  have e2 : readUint32LE (putUint32LE n) = n := by
    rw [readUint32LE_put]
    exact Nat.mod_eq_of_lt (lt_trans hlt (by norm_num))
  have e2m : readUint32LE (putUint32LE m) = m := by
    rw [readUint32LE_put]
    exact Nat.mod_eq_of_lt (lt_trans hm (by norm_num))
  have e3 : toInt32 n = (n : Int) := by
    unfold toInt32; rw [if_pos]; exact_mod_cast hlt
  have e3m : toInt32 m = (m : Int) := by
    unfold toInt32; rw [if_pos]; exact_mod_cast hm
  have c2 : ¬((n : Int) ≤ 0) := by exact_mod_cast Nat.not_le.mpr hpos
  have e4 : ((n : Int)).toNat = n := Int.toNat_natCast n
  have e5 : (if n % 4 ≠ 0 then n + (4 - n % 4) else n) = n + padl.length := by
    rw [hpadl]; split <;> omega
  have e6 : (putUint32LE n ++ t).drop 4 = t :=
    List.drop_left' (putUint32LE_length n)
  have c3 : ¬(t.length < n + padl.length + 4) := by omega
  have e7 : t.take (n + padl.length + 4) = (p ++ padl) ++ putUint32LE m := by
    rw [ht, show p ++ padl ++ putUint32LE m ++ rest =
      ((p ++ padl) ++ putUint32LE m) ++ rest from by simp [List.append_assoc]]
    exact List.take_left' hXlen
  have e8 : (((p ++ padl) ++ putUint32LE m)).drop (n + padl.length) =
      putUint32LE m := by
    refine List.drop_left' ?_
    simp [hn]
  have e9 : (((p ++ padl) ++ putUint32LE m)).take n = p := by
    rw [List.append_assoc]
    exact List.take_left' hn
  have e10 : t.drop (n + padl.length + 4) = rest := by
    rw [ht, show p ++ padl ++ putUint32LE m ++ rest =
      ((p ++ padl) ++ putUint32LE m) ++ rest from by simp [List.append_assoc]]
    exact List.drop_left' hXlen
  unfold readerRead
  simp only [c1, if_false, ite_false, e1, e2, e2m, e3, e3m, e4, e5, e6, e7, e8,
    e9, e10, if_neg c1, if_neg c2, if_neg c3]
  by_cases hmn : m = n
  · simp [hmn]
  · have : (m : Int) ≠ (n : Int) := by exact_mod_cast hmn
    simp [hmn, this]

/-- Frame-level round trip: a record encoding a non-empty payload shorter
than `2^31` bytes, followed by any remaining stream, is read back as
exactly that payload, leaving the remainder untouched. -/
theorem readerRead_encode (p rest : List Nat) (hpos : 0 < p.length)
    (hlt : p.length < 2 ^ 31) :
    readerRead (encodeToRawRecordBytes p ++ rest) = .ok (p, rest) := by
  rw [encodeToRawRecordBytes_eq]
  have hshape : putUint32LE p.length ++
      ((p ++ List.replicate (framePad p.length) 0) ++ putUint32LE p.length) ++ rest =
      putUint32LE p.length ++
        (p ++ List.replicate (framePad p.length) 0 ++ putUint32LE p.length ++ rest) := by
    simp [List.append_assoc]
  rw [hshape]
  have h := readerRead_shape p.length p.length p
    (List.replicate (framePad p.length) 0) rest rfl hpos hlt hlt
    (by rw [List.length_replicate]; unfold framePad; split <;> omega)
  rw [if_pos rfl] at h
  exact h

/-- A head whose `int32` reading is non-positive is rejected immediately. -/
theorem readerRead_badHead (u : Nat) (rest : List Nat)
    (h : toInt32 (u % 2 ^ 32) ≤ 0) :
    readerRead (putUint32LE u ++ rest) =
      .error (.badHeadSize (toInt32 (u % 2 ^ 32))) := by
  have c1 : ¬((putUint32LE u ++ rest).length < 4) := by
    rw [List.length_append, putUint32LE_length]; omega
  have e1 : (putUint32LE u ++ rest).take 4 = putUint32LE u :=
    List.take_left' (putUint32LE_length u)
  unfold readerRead
  simp only [if_neg c1, e1, readUint32LE_put, if_pos h]

/-- Claim C5 (amended): the blob frame round-trips every non-empty payload.
`proto.Marshal`/`proto.Unmarshal` are external library calls; the payload
list stands for the marshalled bytes of the entry, so recovering exactly
the payload yields an entry proto-equal to the original.  Reading back the
frame of a payload `p` with `0 < len p < 2^31` returns exactly `p` and the
rest of the stream, and the on-wire size is `4 + len p + pad + 4` with
`pad ∈ {0..3}`.  The all-default entry, whose marshalled form is empty, is
excluded: its frame is rejected (see the counterexample). -/
theorem blob_frame_roundtrip (p rest : List Nat) (hpos : 0 < p.length)
    (hlt : p.length < 2 ^ 31) :
    readerRead (encodeToRawRecordBytes p ++ rest) = .ok (p, rest) ∧
      (encodeToRawRecordBytes p).length = 4 + p.length + framePad p.length + 4 ∧
      framePad p.length < 4 := by
  refine ⟨readerRead_encode p rest hpos hlt, ?_, ?_⟩
  · exact (encodeToRawRecordBytes_length p).1
  · exact (encodeToRawRecordBytes_length p).2

/-- Witness for the amended C5 theorem at a concrete 5-byte payload. -/
theorem blob_frame_roundtrip_witness :
    readerRead (encodeToRawRecordBytes [1, 2, 3, 4, 5] ++ [9, 9]) =
      .ok ([1, 2, 3, 4, 5], [9, 9]) ∧
      (encodeToRawRecordBytes [1, 2, 3, 4, 5]).length =
        4 + 5 + framePad 5 + 4 ∧ framePad 5 < 4 :=
  blob_frame_roundtrip [1, 2, 3, 4, 5] [9, 9] (by decide) (by decide)

/-- Claim C5 counterexample: the all-default `LogEntry` marshals to zero
proto bytes, and the frame of the empty payload cannot be read back: the
reader rejects its zero head size.  So `decode(encode(E)) = E` fails for
that entry. -/
theorem blob_frame_empty_payload_rejected :
    readerRead (encodeToRawRecordBytes [] ++ []) =
      .error (.badHeadSize 0) := by rfl

/-- Claim C6 (amended): `Reader.Read` parses a 4-byte little-endian head as
`int32` and errors when that value is ≤ 0 — which covers a zero size and
any raw size of `2^31` or more, but not sizes between 16 MiB and `2^31`
(the 16 MiB bound of the claim only exists in the server-side
`readRecord`, not here).  Otherwise it reads `padded_size + 4` bytes and
fails with a `BAD_RECORD` tail-mismatch error exactly when the 4-byte tail
differs from the head, succeeding when they match. -/
theorem blob_reader_validation :
    (∀ rest : List Nat, readerRead (putUint32LE 0 ++ rest) =
      .error (.badHeadSize 0)) ∧
    (∀ (u : Nat) (rest : List Nat), 2 ^ 31 ≤ u → u < 2 ^ 32 →
      readerRead (putUint32LE u ++ rest) =
        .error (.badHeadSize ((u : Int) - 2 ^ 32))) ∧
    (∀ (n m : Nat) (p padl rest : List Nat), p.length = n → 0 < n →
      n < 2 ^ 31 → m < 2 ^ 31 →
      padl.length = (if n % 4 ≠ 0 then 4 - n % 4 else 0) → m ≠ n →
      readerRead (putUint32LE n ++ (p ++ padl ++ putUint32LE m ++ rest)) =
        .error (.badTail (m : Int) (n : Int))) ∧
    (∀ (n : Nat) (p padl rest : List Nat), p.length = n → 0 < n →
      n < 2 ^ 31 →
      padl.length = (if n % 4 ≠ 0 then 4 - n % 4 else 0) →
      readerRead (putUint32LE n ++ (p ++ padl ++ putUint32LE n ++ rest)) =
        .ok (p, rest)) := by
  refine ⟨?_, ?_, ?_, ?_⟩
  · intro rest
    have h := readerRead_badHead 0 rest (by decide)
    simpa using h
  · intro u rest hlo hhi
    have hmod : u % 2 ^ 32 = u := Nat.mod_eq_of_lt hhi
    have hval : toInt32 (u % 2 ^ 32) = (u : Int) - 2 ^ 32 := by
      rw [hmod]; unfold toInt32
      rw [if_neg (by omega)]
    have h := readerRead_badHead u rest (by rw [hval]; omega)
    rw [hval] at h
    exact h
  · intro n m p padl rest hn hpos hlt hm hpadl hmn
    have h := readerRead_shape n m p padl rest hn hpos hlt hm hpadl
    rw [if_neg hmn] at h
    exact h
  · intro n p padl rest hn hpos hlt hpadl
    have h := readerRead_shape n n p padl rest hn hpos hlt hlt hpadl
    rw [if_pos rfl] at h
    exact h

/-- Witness for the amended C6 theorem: a mismatching tail is rejected as
`BAD_RECORD`, and the matching frame is accepted, at concrete inputs. -/
theorem blob_reader_validation_witness :
    readerRead (putUint32LE 1 ++ ([5] ++ [0, 0, 0] ++ putUint32LE 2 ++ [])) =
      .error (.badTail 2 1) ∧
    readerRead (putUint32LE 1 ++ ([5] ++ [0, 0, 0] ++ putUint32LE 1 ++ [])) =
      .ok ([5], []) :=
  ⟨blob_reader_validation.2.2.1 1 2 [5] [0, 0, 0] [] (by decide) (by decide)
      (by decide) (by decide) (by decide) (by decide),
    blob_reader_validation.2.2.2 1 [5] [0, 0, 0] [] (by decide) (by decide)
      (by decide) (by decide)⟩

/-! ## Theorems: chunked emitter -/

theorem sumSize_nil : sumSize [] = 0 := rfl

theorem sumSize_cons (r : Rec) (l : List Rec) :
    sumSize (r :: l) = (r.size : Int) + sumSize l := rfl

/-- Loop invariant of `fetchChunk`'s walk: the accumulated total is the
starting total plus the chunk's byte sum, the entry count is the chunk's
length, and the chunk plus the remainder reassemble the buffer. -/
theorem fetchChunkGo_spec (buf : List Rec) (total cs : Int) :
    (fetchChunkGo buf total cs).2.2.1 =
      total + sumSize (fetchChunkGo buf total cs).1 ∧
    (fetchChunkGo buf total cs).2.2.2 = (fetchChunkGo buf total cs).1.length ∧
    buf = (fetchChunkGo buf total cs).1 ++ (fetchChunkGo buf total cs).2.1 := by
  induction buf generalizing total with
  | nil => simp [fetchChunkGo, sumSize]
  | cons r rest ih =>
    by_cases h1 : total < cs
    · by_cases h2 : total + (r.size : Int) > cs
      · simp [fetchChunkGo, h1, h2, sumSize]
      · have ih' := ih (total + (r.size : Int))
        rcases hres : fetchChunkGo rest (total + (r.size : Int)) cs with ⟨c, rem, t, n⟩
        rw [hres] at ih'
        obtain ⟨iht, ihn, ihb⟩ := ih'
        simp only at iht ihn ihb
        unfold fetchChunkGo
        rw [if_pos h1, if_neg h2, hres]
        refine ⟨?_, ?_, ?_⟩
        · simp only [sumSize_cons]
          rw [iht]; ring
        · simp [ihn]
        · rw [ihb]; rfl
    · simp [fetchChunkGo, h1, sumSize]

/-- Claim C2 (amended): for every chunk attempt, the `ChunkInfo` handed to
`StartStreamInChunk` carries `total_size` equal to the sum of the chunk
entries' encoded sizes and `num_entries` equal to their count — but
`first_nano_ts` and `last_nano_ts` are never assigned by `fetchChunk` and
stay at Go's zero value, not at the first/last entry's `nano_ts`. -/
theorem chunked_chunkinfo_amended (buf : List Rec) (cs : Int) :
    (fetchChunk buf cs).2.2.totalSize = sumSize (fetchChunk buf cs).1 ∧
    (fetchChunk buf cs).2.2.numEntries = (fetchChunk buf cs).1.length ∧
    (fetchChunk buf cs).2.2.firstNanoTS = 0 ∧
    (fetchChunk buf cs).2.2.lastNanoTS = 0 ∧
    buf = (fetchChunk buf cs).1 ++ (fetchChunk buf cs).2.1 := by
  have h := fetchChunkGo_spec buf 0 cs
  rcases hres : fetchChunkGo buf 0 cs with ⟨c, rem, t, n⟩
  rw [hres] at h
  obtain ⟨ht, hn, hb⟩ := h
  simp only at ht hn hb
  unfold fetchChunk
  rw [hres]
  refine ⟨?_, ?_, rfl, rfl, ?_⟩
  · simpa using ht
  · simpa using hn
  · exact hb

/-- Claim C2 counterexample: a singleton chunk whose entry has
`nano_ts = 7` is fetched with `first_nano_ts = last_nano_ts = 0`, not 7. -/
theorem chunked_chunkinfo_counterexample :
    (fetchChunk [plainRec 7 1] 10).1 = [plainRec 7 1] ∧
    (fetchChunk [plainRec 7 1] 10).2.2.numEntries = 1 ∧
    (fetchChunk [plainRec 7 1] 10).2.2.firstNanoTS = 0 ∧
    (fetchChunk [plainRec 7 1] 10).2.2.lastNanoTS = 0 ∧
    (plainRec 7 1).entry.nanoTs = 7 := by
  refine ⟨rfl, rfl, rfl, rfl, rfl⟩

/-- The discard loop drops exactly the acknowledged prefix and keeps the
running `TotalSize` equal to the byte sum of what remains. -/
theorem discardReceived_eq (chunk : List Rec) (T : Int) :
    discardReceived chunk (sumSize chunk) T =
      (chunk.dropWhile (fun r => decide (r.entry.nanoTs ≤ T)),
        sumSize (chunk.dropWhile (fun r => decide (r.entry.nanoTs ≤ T)))) := by
  induction chunk with
  | nil => simp [discardReceived, sumSize]
  | cons r rest ih =>
    by_cases h : r.entry.nanoTs ≤ T
    · have hsub : sumSize (r :: rest) - (r.size : Int) = sumSize rest := by
        rw [sumSize_cons]; ring
      rw [List.dropWhile_cons_of_pos (by simpa using h)]
      unfold discardReceived
      rw [if_pos h, hsub]
      exact ih
    · rw [List.dropWhile_cons_of_neg (by simpa using h)]
      unfold discardReceived
      rw [if_neg h]

/-- For a time-ordered chunk, dropping the acknowledged prefix is the same
as filtering out every acknowledged record. -/
theorem dropWhile_eq_filter_of_sorted (chunk : List Rec) (T : Int)
    (hs : chunk.Pairwise (fun a b => a.entry.nanoTs ≤ b.entry.nanoTs)) :
    chunk.dropWhile (fun r => decide (r.entry.nanoTs ≤ T)) =
      chunk.filter (fun r => decide (T < r.entry.nanoTs)) := by
  induction chunk with
  | nil => rfl
  | cons r rest ih =>
    rcases List.pairwise_cons.mp hs with ⟨hr, hrest⟩
    by_cases h : r.entry.nanoTs ≤ T
    · rw [List.dropWhile_cons_of_pos (by simpa using h),
        List.filter_cons_of_neg (by simp; omega)]
      exact ih hrest
    · rw [List.dropWhile_cons_of_neg (by simpa using h),
        List.filter_cons_of_pos (by simp; omega)]
      congr 1
      refine (List.filter_eq_self.mpr ?_).symm
      intro a ha
      have := hr a ha
      simp
      omega

/-- The drop-oldest loop removes a prefix: its survivors are a suffix of
the input list. -/
theorem dropOldest_suffix (buf : List Rec) (total maxSize : Int) :
    ∃ d, (dropOldest buf total maxSize).1 = buf.drop d := by
  induction buf generalizing total with
  | nil => exact ⟨0, rfl⟩
  | cons r rest ih =>
    by_cases h : total > maxSize
    · obtain ⟨d, hd⟩ := ih (total - (r.size : Int))
      refine ⟨d + 1, ?_⟩
      unfold dropOldest
      rw [if_pos h]
      simpa using hd
    · refine ⟨0, ?_⟩
      unfold dropOldest
      rw [if_neg h]
      rfl

/-- The requeue step always produces: the drop-oldest survivors of the
unacknowledged remainder, prepended in front of the buffer. -/
theorem emitChunksAfterStream_requeued (chunk buffer : List Rec)
    (T bufTotal maxSize : Int) :
    (emitChunksAfterStream chunk (sumSize chunk) T buffer bufTotal
        maxSize).1 =
      (dropOldest (chunk.dropWhile fun r => decide (r.entry.nanoTs ≤ T))
        (sumSize (chunk.dropWhile fun r => decide (r.entry.nanoTs ≤ T)) +
          bufTotal) maxSize).1 ++ buffer := by
  unfold emitChunksAfterStream
  rw [discardReceived_eq]
  cases hD : chunk.dropWhile fun r => decide (r.entry.nanoTs ≤ T) with
  | nil => simp [dropOldest]
  | cons hd tl =>
    rcases hdo : dropOldest (hd :: tl) (sumSize (hd :: tl) + bufTotal)
        maxSize with ⟨survivors, t1, lost⟩
    simp only [hdo]
    cases survivors with
    | nil => simp
    | cons s ss => simp

/-- Claim C1 (amended): the requeue step of `emitChunks` on a time-ordered
chunk (the data model's entries carry nondecreasing `nano_ts`).  With
`StreamEnd` (or the failure path) yielding `last_received_ts = T`: the
new buffer is the surviving suffix of the chunk's `nano_ts > T` records
prepended — in their original order — in front of the buffer, so they are
re-sent before any later enqueue; the surviving suffix is exactly what
the `MaxBuffer` drop-oldest check leaves; and every record with
`nano_ts ≤ T` is gone, while everything requeued satisfies
`nano_ts > T`. -/
theorem chunked_requeue_amended (chunk buffer : List Rec)
    (T bufTotal maxSize : Int)
    (hs : chunk.Pairwise (fun a b => a.entry.nanoTs ≤ b.entry.nanoTs)) :
    ∃ d,
      (emitChunksAfterStream chunk (sumSize chunk) T buffer bufTotal
          maxSize).1 =
        ((chunk.filter fun r => decide (T < r.entry.nanoTs)).drop d)
          ++ buffer ∧
      ((chunk.filter fun r => decide (T < r.entry.nanoTs)).drop d) =
        (dropOldest (chunk.filter fun r => decide (T < r.entry.nanoTs))
          (sumSize (chunk.filter fun r => decide (T < r.entry.nanoTs)) +
            bufTotal) maxSize).1 ∧
      ∀ r ∈ (chunk.filter fun r => decide (T < r.entry.nanoTs)).drop d,
        T < r.entry.nanoTs := by
  have key := emitChunksAfterStream_requeued chunk buffer T bufTotal maxSize
  rw [dropWhile_eq_filter_of_sorted chunk T hs] at key
  obtain ⟨d, hdrop⟩ := dropOldest_suffix
    (chunk.filter fun r => decide (T < r.entry.nanoTs))
    (sumSize (chunk.filter fun r => decide (T < r.entry.nanoTs)) + bufTotal)
    maxSize
  refine ⟨d, ?_, hdrop.symm, ?_⟩
  · rw [key, hdrop]
  · intro r hr
    have hr1 : r ∈ chunk.filter fun r => decide (T < r.entry.nanoTs) :=
      List.mem_of_mem_drop hr
    have := List.of_mem_filter hr1
    simpa using this

/-- Claim C1 counterexample: with the out-of-order chunk
`[nano_ts 5, nano_ts 3]` and `last_received_ts = 3`, the discard loop
stops at the first record, so the `nano_ts = 3` record — although
`≤ T` — is requeued and re-sent instead of being removed. -/
theorem chunked_requeue_counterexample :
    (emitChunksAfterStream [plainRec 5 1, plainRec 3 1]
        (sumSize [plainRec 5 1, plainRec 3 1]) 3 [] 0 100).1 =
      [plainRec 5 1, plainRec 3 1] ∧
    plainRec 3 1 ∈ (emitChunksAfterStream [plainRec 5 1, plainRec 3 1]
        (sumSize [plainRec 5 1, plainRec 3 1]) 3 [] 0 100).1 ∧
    (plainRec 3 1).entry.nanoTs ≤ 3 := by
  refine ⟨rfl, ?_, by decide⟩
  rw [show (emitChunksAfterStream [plainRec 5 1, plainRec 3 1]
      (sumSize [plainRec 5 1, plainRec 3 1]) 3 [] 0 100).1 =
      [plainRec 5 1, plainRec 3 1] from rfl]
  simp

/-- Witness for the amended C1 theorem at a concrete sorted chunk:
`[ts 1, ts 2, ts 3]`, `T = 2`, empty buffer. -/
theorem chunked_requeue_amended_witness :
    ∃ d,
      (emitChunksAfterStream [plainRec 1 10, plainRec 2 10, plainRec 3 10]
          (sumSize [plainRec 1 10, plainRec 2 10, plainRec 3 10]) 2 [] 30
          1000).1 =
        (([plainRec 1 10, plainRec 2 10, plainRec 3 10].filter
            fun r => decide ((2 : Int) < r.entry.nanoTs)).drop d) ++ [] ∧
      (([plainRec 1 10, plainRec 2 10, plainRec 3 10].filter
          fun r => decide ((2 : Int) < r.entry.nanoTs)).drop d) =
        (dropOldest ([plainRec 1 10, plainRec 2 10, plainRec 3 10].filter
            fun r => decide ((2 : Int) < r.entry.nanoTs))
          (sumSize ([plainRec 1 10, plainRec 2 10, plainRec 3 10].filter
              fun r => decide ((2 : Int) < r.entry.nanoTs)) + 30) 1000).1 ∧
      ∀ r ∈ ([plainRec 1 10, plainRec 2 10, plainRec 3 10].filter
          fun r => decide ((2 : Int) < r.entry.nanoTs)).drop d,
        (2 : Int) < r.entry.nanoTs :=
  chunked_requeue_amended [plainRec 1 10, plainRec 2 10, plainRec 3 10] []
    2 30 1000 (by decide)

/-- Claim C10: a buffer whose head record is strictly larger than
`ChunkSize` yields an empty chunk (`num_entries = 0`), `emitChunks`
returns without calling the streamer and leaves buffer and total
untouched, and an enqueue can only remove such a record through the
drop-oldest overflow loop (the new buffer is always a suffix of the old
buffer plus the appended record). -/
theorem chunked_oversized_entry_starves (r : Rec) (rest' buffer2 : List Rec)
    (bufTotal maxSize cs : Int) (startErr : Bool) (lastTS : Int)
    (total2 : Int) (rec2 : Rec) (hsize : (r.size : Int) > cs) :
    fetchChunk (r :: rest') cs =
      ([], r :: rest',
        { totalSize := 0, numEntries := 0, firstNanoTS := 0,
          lastNanoTS := 0 }) ∧
    emitChunksStep (r :: rest') bufTotal maxSize cs startErr lastTS =
      ([], r :: rest', bufTotal) ∧
    ∃ d, (emitLogEntryGo (r :: buffer2) total2 rec2 maxSize).1 =
      ((r :: buffer2) ++ [rec2]).drop d := by
  have hfg : fetchChunkGo (r :: rest') 0 cs = ([], r :: rest', 0, 0) := by
    unfold fetchChunkGo
    by_cases h1 : (0 : Int) < cs
    · rw [if_pos h1, if_pos (by omega)]
    · rw [if_neg h1]
  have hfc : fetchChunk (r :: rest') cs =
      ([], r :: rest',
        { totalSize := 0, numEntries := 0, firstNanoTS := 0,
          lastNanoTS := 0 }) := by
    unfold fetchChunk
    rw [hfg]
  refine ⟨hfc, ?_, ?_⟩
  · unfold emitChunksStep
    rw [hfc]
    rfl
  · exact dropOldest_suffix ((r :: buffer2) ++ [rec2])
      (total2 + (rec2.size : Int)) maxSize

/-- Witness for C10 at a concrete oversized record (size 10, chunk cap 5). -/
theorem chunked_oversized_entry_starves_witness :
    fetchChunk [plainRec 1 10] 5 =
      ([], [plainRec 1 10],
        { totalSize := 0, numEntries := 0, firstNanoTS := 0,
          lastNanoTS := 0 }) ∧
    emitChunksStep [plainRec 1 10] 10 100 5 false 0 =
      ([], [plainRec 1 10], 10) ∧
    ∃ d, (emitLogEntryGo [plainRec 1 10] 10 (plainRec 2 3) 100).1 =
      ([plainRec 1 10] ++ [plainRec 2 3]).drop d :=
  chunked_oversized_entry_starves (plainRec 1 10) [] [] 10 100 5 false 0
    10 (plainRec 2 3) (by decide)

/-! ## Theorems: ingress ack cadence -/

/-- The write loop equals its specification: the successful run is the
maximal prefix on which the writer succeeds; `receivedNanoTS` becomes the
last successful entry's timestamp (else stays), `ackPending` grows by the
run's length, and the propagated error is the writer's verdict on the
first entry past the run. -/
theorem writeLoop_spec (w : LogEntry → Option String) (es : List LogEntry)
    (st : IngressState) :
    writeLoop w es st =
      ({ receivedNanoTS :=
            (es.takeWhile fun e => (w e).isNone).foldl (fun _ e => e.nanoTs)
              st.receivedNanoTS,
          ackPending :=
            st.ackPending + (es.takeWhile fun e => (w e).isNone).length },
        ((es.dropWhile fun e => (w e).isNone).head?).bind w) := by
  induction es generalizing st with
  | nil => simp [writeLoop]
  | cons e rest ih =>
    cases hw : w e with
    | some err =>
      unfold writeLoop
      rw [hw]
      simp [List.takeWhile_cons, List.dropWhile_cons, hw]
    | none =>
      unfold writeLoop
      rw [hw]
      rw [ih]
      simp [List.takeWhile_cons, List.dropWhile_cons, hw]
      omega

/-- The head of the failed remainder indeed fails. -/
theorem dropWhile_head_fails (p : LogEntry → Bool) (l : List LogEntry) :
    ∀ e, (l.dropWhile p).head? = some e → p e = false := by
  induction l with
  | nil => intro e h; simp at h
  | cons a rest ih =>
    intro e h
    by_cases ha : p a
    · rw [List.dropWhile_cons_of_pos ha] at h
      exact ih e h
    · rw [List.dropWhile_cons_of_neg ha] at h
      simp at h
      rw [← h]
      exact Bool.not_eq_true _ ▸ (by simpa using ha)

/-- Claim C4: after each `IngressBatch`, the server sends
`IngressEvent{last_nano_ts = received_nano_ts}` (the timestamp of the
last successfully written entry) and resets the pending-ack counter to 0
exactly when the batch had `chunk_end`, a `WriteLogEntry` error occurred
mid-batch, or strictly more than `maxPendingAcknowledges = 8` entries
were successfully written since the last ack; the write error is
returned, terminating the stream.  The second conjunct shows the
propagated error is present exactly when not every entry of the batch was
written. -/
theorem ingress_ack_cadence (w : LogEntry → Option String)
    (st : IngressState) (msg : IngressBatch) :
    (handleMessage w st msg =
      (let okRun := msg.entries.takeWhile fun e => (w e).isNone
       let received := okRun.foldl (fun _ e => e.nanoTs) st.receivedNanoTS
       let newAck := st.ackPending + okRun.length
       let errVal := ((msg.entries.dropWhile fun e => (w e).isNone).head?).bind w
       if msg.chunkEnd ∨ newAck > maxPendingAcknowledges ∨ errVal.isSome then
         ({ receivedNanoTS := received, ackPending := 0 }, [received], errVal)
       else ({ receivedNanoTS := received, ackPending := newAck }, [], errVal))) ∧
    ((((msg.entries.dropWhile fun e => (w e).isNone).head?).bind w).isSome ↔
      (msg.entries.takeWhile fun e => (w e).isNone).length <
        msg.entries.length) := by
  constructor
  · unfold handleMessage
    rw [writeLoop_spec]
  · have hsum : (msg.entries.takeWhile fun e => (w e).isNone).length +
        (msg.entries.dropWhile fun e => (w e).isNone).length =
        msg.entries.length := by
      rw [← List.length_append, List.takeWhile_append_dropWhile]
    cases hD : msg.entries.dropWhile fun e => (w e).isNone with
    | nil =>
      rw [hD] at hsum
      simp at hsum
      simp only [List.head?_nil, Option.none_bind, Option.isSome_none]
      constructor
      · intro h; simp at h
      · intro h; exfalso; omega
    | cons e tail =>
      have he : (w e).isNone = false := by
        have := dropWhile_head_fails (fun e => (w e).isNone) msg.entries e
        rw [hD] at this
        exact this (by simp)
      rw [hD] at hsum
      simp at hsum
      simp only [List.head?_cons, Option.some_bind]
      constructor
      · intro
        omega
      · intro
        cases hw : w e with
        | none => rw [hw] at he; simp at he
        | some err => simp

/-! ## Theorems: span assembler -/

theorem assocRemove_keys {β : Type} (m : List (String × β)) (k : String) :
    ∀ p ∈ assocRemove m k, p.1 ≠ k := by
  intro p hp
  have := List.of_mem_filter hp
  simpa using this

theorem assocRemove_eq_self {β : Type} (m : List (String × β)) (k : String)
    (h : ∀ p ∈ m, p.1 ≠ k) : assocRemove m k = m := by
  refine List.filter_eq_self.mpr ?_
  intro p hp
  simpa using h p hp

theorem assocStore_free {β : Type} (rest : List (String × β)) (k : String)
    (v w : β) (h : ∀ p ∈ rest, p.1 ≠ k) :
    assocStore ((k, v) :: rest) k w = (k, w) :: rest := by
  unfold assocStore
  rw [List.filter_cons_of_neg (by simp)]
  congr 1
  exact assocRemove_eq_self rest k h

theorem assocRemove_cons_free {β : Type} (rest : List (String × β))
    (k : String) (v : β) (h : ∀ p ∈ rest, p.1 ≠ k) :
    assocRemove ((k, v) :: rest) k = rest := by
  unfold assocRemove
  rw [List.filter_cons_of_neg (by simp)]
  exact assocRemove_eq_self rest k h

theorem assocLoad_cons_self {β : Type} (rest : List (String × β))
    (k : String) (v : β) : assocLoad ((k, v) :: rest) k = some v := by
  simp [assocLoad]

theorem assocLoad_none_of_free {β : Type} (m : List (String × β))
    (k : String) (h : ∀ p ∈ m, p.1 ≠ k) : assocLoad m k = none := by
  unfold assocLoad
  rw [List.find?_eq_none.mpr ?_]
  · rfl
  · intro p hp
    simpa using h p hp

/-- One regular (no-event) entry carrying the open span id appends the
entry to that span's log list. -/
theorem addLogEntry_regular (S : String) (e : LogEntry) (span : Span)
    (rest0 : SpanMap) (hS : S ≠ "")
    (hid : idStringFrom (getSpanContext e) = S)
    (hev : getEvent e = TraceEvent.noEvent)
    (hfree : ∀ p ∈ rest0, p.1 ≠ S) :
    addLogEntry ((S, span) :: rest0) e =
      (none, (S, { span with logs := span.logs ++ [e] }) :: rest0) := by
  unfold addLogEntry
  rw [hid, if_neg hS, hev, assocLoad_cons_self]
  dsimp only
  rw [assocStore_free rest0 S span _ hfree]

/-- A SpanStart entry opens a fresh span record. -/
theorem addLogEntry_spanStart (S : String) (e : LogEntry)
    (ev : SpanStartEvent) (m : SpanMap) (hS : S ≠ "")
    (hid : idStringFrom (getSpanContext e) = S)
    (hev : getEvent e = TraceEvent.spanStart ev) :
    addLogEntry m e =
      (none, (S,
        { context := getSpanContext e
          name := ev.name
          kind := ev.kind
          startNs := e.nanoTs
          duration := 0
          attributes := e.attributes
          links := ev.links
          logs := [e] }) :: assocRemove m S) := by
  unfold addLogEntry
  rw [hid, if_neg hS, hev]
  rfl

/-- A SpanEnd entry for the open span id closes it: the entry is appended,
the duration computed, the mapping removed, and the span returned. -/
theorem addLogEntry_spanEnd (S : String) (e : LogEntry) (span : Span)
    (rest0 : SpanMap) (hS : S ≠ "")
    (hid : idStringFrom (getSpanContext e) = S)
    (hev : getEvent e = TraceEvent.spanEnd)
    (hfree : ∀ p ∈ rest0, p.1 ≠ S) :
    addLogEntry ((S, span) :: rest0) e =
      (some { span with
                logs := span.logs ++ [e]
                duration := e.nanoTs - span.startNs }, rest0) := by
  unfold addLogEntry
  rw [hid, if_neg hS, hev, assocLoad_cons_self]
  dsimp only
  rw [show assocRemove ((S, span) :: rest0) S = rest0 from
    assocRemove_cons_free rest0 S span hfree]

theorem addLogEntries_cons (m : SpanMap) (e : LogEntry) (l : List LogEntry) :
    addLogEntries m (e :: l) =
      ((addLogEntry m e).1 :: (addLogEntries (addLogEntry m e).2 l).1,
        (addLogEntries (addLogEntry m e).2 l).2) := by
  rcases h1 : addLogEntry m e with ⟨r, m1⟩
  rcases h2 : addLogEntries m1 l with ⟨rs, m2⟩
  simp only [addLogEntries, h1, h2]

theorem addLogEntries_append (m : SpanMap) (l1 l2 : List LogEntry) :
    addLogEntries m (l1 ++ l2) =
      ((addLogEntries m l1).1 ++
          (addLogEntries (addLogEntries m l1).2 l2).1,
        (addLogEntries (addLogEntries m l1).2 l2).2) := by
  induction l1 generalizing m with
  | nil => simp [addLogEntries]
  | cons e t ih =>
    rw [List.cons_append, addLogEntries_cons, ih, addLogEntries_cons]
    rfl

/-- Feeding regular entries for the open span id appends them, in order,
to its log list, and every call returns `nil`. -/
theorem addLogEntries_regulars (S : String) (regs : List LogEntry)
    (rest0 : SpanMap) (span : Span) (hS : S ≠ "")
    (hfree : ∀ p ∈ rest0, p.1 ≠ S)
    (hregs : ∀ e ∈ regs, getEvent e = TraceEvent.noEvent ∧
      idStringFrom (getSpanContext e) = S) :
    addLogEntries ((S, span) :: rest0) regs =
      (List.replicate regs.length none,
        (S, { span with logs := span.logs ++ regs }) :: rest0) := by
  induction regs generalizing span with
  | nil => simp [addLogEntries]
  | cons e rest ih =>
    obtain ⟨hev, hid⟩ := hregs e (by simp)
    rw [addLogEntries_cons,
      addLogEntry_regular S e span rest0 hS hid hev hfree]
    have ih' := ih { span with logs := span.logs ++ [e] }
      (fun e he => hregs e (by simp [he]))
    simp only at ih'
    rw [ih']
    simp [List.append_assoc, List.replicate_succ]

/-- Claim C3: for a SpanStart entry for id `S`, then `k` regular entries
carrying `S`, then a SpanEnd for `S`, the first `k+1` calls return `nil`
and the last returns a span whose logs are exactly the `k+2` entries in
order and whose duration is `end.nano_ts − start.nano_ts`; the mapping
for `S` is removed afterwards.  Entries whose span context yields no id
string are ignored. -/
theorem span_assembler_correct (S : String) (startE endE : LogEntry)
    (ev : SpanStartEvent) (regs : List LogEntry) (m0 : SpanMap)
    (hS : S ≠ "")
    (hstartid : idStringFrom (getSpanContext startE) = S)
    (hstartev : getEvent startE = TraceEvent.spanStart ev)
    (hregs : ∀ e ∈ regs, getEvent e = TraceEvent.noEvent ∧
      idStringFrom (getSpanContext e) = S)
    (hendid : idStringFrom (getSpanContext endE) = S)
    (hendev : getEvent endE = TraceEvent.spanEnd) :
    (∃ finalSpan : Span,
      addLogEntries m0 (startE :: (regs ++ [endE])) =
        (List.replicate (regs.length + 1) none ++ [some finalSpan],
          assocRemove m0 S) ∧
      finalSpan.logs = startE :: (regs ++ [endE]) ∧
      finalSpan.logs.length = regs.length + 2 ∧
      finalSpan.duration = endE.nanoTs - startE.nanoTs ∧
      assocLoad (assocRemove m0 S) S = none) ∧
    (∀ (m : SpanMap) (e : LogEntry),
      idStringFrom (getSpanContext e) = "" → addLogEntry m e = (none, m)) := by
  constructor
  · have hfree := assocRemove_keys m0 S
    refine ⟨{ context := getSpanContext startE
              name := ev.name
              kind := ev.kind
              startNs := startE.nanoTs
              duration := endE.nanoTs - startE.nanoTs
              attributes := startE.attributes
              links := ev.links
              logs := startE :: (regs ++ [endE]) }, ?_, rfl, ?_, rfl, ?_⟩
    · rw [addLogEntries_cons,
        addLogEntry_spanStart S startE ev m0 hS hstartid hstartev]
      simp only
      rw [addLogEntries_append,
        addLogEntries_regulars S regs (assocRemove m0 S) _ hS hfree hregs]
      simp only
      rw [addLogEntries_cons,
        addLogEntry_spanEnd S endE _ (assocRemove m0 S) hS hendid hendev
          hfree]
      simp only [addLogEntries]
      rw [show List.replicate (regs.length + 1) (none : Option Span) =
        none :: List.replicate regs.length none from rfl]
      simp [List.append_assoc]
    · simp
    · exact assocLoad_none_of_free (assocRemove m0 S) S hfree
  · intro m e hide
    unfold addLogEntry
    rw [hide, if_pos rfl]

/-- Witness for C3 with `k = 0`: SpanStart then SpanEnd in a concrete
span context, starting from the empty map. -/
theorem span_assembler_correct_witness :
    (∃ finalSpan : Span,
      addLogEntries ([] : SpanMap) (demoStart :: ([] ++ [demoEnd])) =
        (List.replicate (List.length ([] : List LogEntry) + 1) none ++
          [some finalSpan],
          assocRemove ([] : SpanMap)
            (idStringFrom (getSpanContext demoStart))) ∧
      finalSpan.logs = demoStart :: ([] ++ [demoEnd]) ∧
      finalSpan.logs.length = List.length ([] : List LogEntry) + 2 ∧
      finalSpan.duration = demoEnd.nanoTs - demoStart.nanoTs ∧
      assocLoad (assocRemove ([] : SpanMap)
          (idStringFrom (getSpanContext demoStart)))
        (idStringFrom (getSpanContext demoStart)) = none) ∧
    (∀ (m : SpanMap) (e : LogEntry),
      idStringFrom (getSpanContext e) = "" → addLogEntry m e = (none, m)) :=
  span_assembler_correct (idStringFrom (getSpanContext demoStart)) demoStart
    demoEnd { name := "s", kind := 0, links := [] } [] [] (by decide) rfl rfl
    (by simp) (by decide) rfl

/-! ## Theorems: trace/span id display round trip -/

theorem hexCharVal_hexDigitChar (n : Nat) (h : n < 16) :
    hexCharVal (hexDigitChar n) = some n := by
  interval_cases n <;> decide

/-- Hex decoding inverts hex encoding on byte lists. -/
theorem hexDecode_encode (bs : List Nat) (h : ∀ b ∈ bs, b < 256) :
    hexDecode (bs.flatMap fun b =>
      [hexDigitChar (b % 256 / 16), hexDigitChar (b % 16)]) = some bs := by
  induction bs with
  | nil => rfl
  | cons b rest ih =>
    have hb : b < 256 := h b (by simp)
    have hmod : b % 256 = b := Nat.mod_eq_of_lt hb
    have h1 : hexCharVal (hexDigitChar (b % 256 / 16)) = some (b / 16) := by
      rw [hmod]
      exact hexCharVal_hexDigitChar _ (by omega)
    have h2 : hexCharVal (hexDigitChar (b % 16)) = some (b % 16) :=
      hexCharVal_hexDigitChar _ (by omega)
    rw [List.flatMap_cons]
    show hexDecode (hexDigitChar (b % 256 / 16) :: hexDigitChar (b % 16) ::
      rest.flatMap fun b =>
        [hexDigitChar (b % 256 / 16), hexDigitChar (b % 16)]) = some (b :: rest)
    unfold hexDecode
    rw [h1, h2, ih fun x hx => h x (by simp [hx])]
    dsimp only
    have : b / 16 * 16 + b % 16 = b := by omega
    rw [this]

theorem natHexCore_fuel_eq (f1 : Nat) :
    ∀ (f2 n : Nat), n < f1 → n < f2 → natHexCore f1 n = natHexCore f2 n := by
  induction f1 with
  | zero => intro f2 n h1; omega
  | succ f1 ih =>
    intro f2 n h1 h2
    cases f2 with
    | zero => omega
    | succ f2 =>
      show natHexCore (f1 + 1) n = natHexCore (f2 + 1) n
      unfold natHexCore
      by_cases h16 : n < 16
      · rw [if_pos h16, if_pos h16]
      · rw [if_neg h16, if_neg h16]
        have hdiv : n / 16 < n := Nat.div_lt_self (by omega) (by omega)
        rw [ih f2 (n / 16) (by omega) (by omega)]

theorem natHex_lt16 (n : Nat) (h : n < 16) : natHex n = [hexDigitChar n] := by
  unfold natHex natHexCore
  rw [if_pos h]

theorem natHex_ge16 (n : Nat) (h : 16 ≤ n) :
    natHex n = natHex (n / 16) ++ [hexDigitChar (n % 16)] := by
  have hdiv : n / 16 < n := Nat.div_lt_self (by omega) (by omega)
  have hstep : natHex n =
      if n < 16 then [hexDigitChar n]
      else natHexCore n (n / 16) ++ [hexDigitChar (n % 16)] := rfl
  rw [hstep, if_neg (by omega),
    natHexCore_fuel_eq n (n / 16 + 1) (n / 16) (by omega) (by omega)]
  rfl

theorem natHex_ne_nil (n : Nat) : natHex n ≠ [] := by
  by_cases h : n < 16
  · rw [natHex_lt16 n h]; simp
  · rw [natHex_ge16 n (by omega)]; simp

theorem parseUintHexGo_cons (c : Char) (rest : List Char) (acc : Nat) :
    parseUintHexGo (c :: rest) acc =
      match hexCharVal c with
      | none => none
      | some d =>
        if acc * 16 + d < 2 ^ 64 then parseUintHexGo rest (acc * 16 + d)
        else none := rfl

theorem parseUintHexGo_append (l1 l2 : List Char) (acc : Nat) :
    parseUintHexGo (l1 ++ l2) acc =
      match parseUintHexGo l1 acc with
      | none => none
      | some a => parseUintHexGo l2 a := by
  induction l1 generalizing acc with
  | nil => rfl
  | cons c rest ih =>
    rw [List.cons_append, parseUintHexGo_cons, parseUintHexGo_cons]
    cases hc : hexCharVal c with
    | none => rfl
    | some d =>
      dsimp only
      by_cases hlt : acc * 16 + d < 2 ^ 64
      · rw [if_pos hlt, ih, if_pos hlt]
      · rw [if_neg hlt, if_neg hlt]

theorem parseUintHexGo_zeros (k : Nat) :
    parseUintHexGo (List.replicate k '0') 0 = some 0 := by
  induction k with
  | zero => rfl
  | succ k ih =>
    rw [List.replicate_succ, parseUintHexGo_cons,
      show hexCharVal '0' = some 0 from rfl]
    dsimp only
    rw [if_pos (by norm_num)]
    simpa using ih

/-- Parsing the minimal hex digits of `n` extends the accumulator: the
result is `acc · 16^digits + n`, provided that stays inside 64 bits. -/
theorem parseUintHexGo_natHex (n : Nat) :
    ∀ acc : Nat, acc * 16 ^ (natHex n).length + n < 2 ^ 64 →
      parseUintHexGo (natHex n) acc =
        some (acc * 16 ^ (natHex n).length + n) := by
  induction n using Nat.strong_induction_on with
  | _ n ih =>
    intro acc hbound
    by_cases h16 : n < 16
    · rw [natHex_lt16 n h16] at hbound ⊢
      simp only [List.length_cons, List.length_nil, pow_one] at hbound ⊢
      rw [parseUintHexGo_cons, hexCharVal_hexDigitChar n h16]
      dsimp only
      rw [if_pos (by omega)]
      show some (acc * 16 + n) = some (acc * 16 ^ (0 + 1) + n)
      norm_num
    · have hdiv : n / 16 < n := Nat.div_lt_self (by omega) (by omega)
      rw [natHex_ge16 n (by omega)] at hbound ⊢
      simp only [List.length_append, List.length_cons, List.length_nil]
        at hbound ⊢
      set L := (natHex (n / 16)).length with hL
      have hpow : 16 ^ (L + 0 + 1) = 16 ^ L * 16 := by ring
      have h1 : (acc * 16 ^ L + n / 16) * 16 + n % 16 =
          acc * 16 ^ (L + 0 + 1) + n := by
        rw [hpow]; ring_nf; omega
      have hmid : acc * 16 ^ L + n / 16 < 2 ^ 64 := by
        have h2 : (acc * 16 ^ L + n / 16) * 16 + n % 16 < 2 ^ 64 := by
          rw [h1]; exact hbound
        omega
      rw [parseUintHexGo_append]
      rw [ih (n / 16) hdiv acc hmid]
      dsimp only
      show parseUintHexGo [hexDigitChar (n % 16)] (acc * 16 ^ L + n / 16) =
        some (acc * 16 ^ (L + 0 + 1) + n)
      rw [parseUintHexGo_cons, hexCharVal_hexDigitChar _ (by omega)]
      dsimp only
      rw [if_pos (by rw [h1]; exact hbound)]
      show some ((acc * 16 ^ L + n / 16) * 16 + n % 16) = _
      rw [h1]

/-- Claim C7: trace-id display round trip (the string form is the 32
lowercase hex characters of the byte-reversed id, parsing inverts it) and
span-id display round trip (`%016x`, parsed back by base-16 `ParseUint`)
for every 16-byte trace id and every non-zero 64-bit span id. -/
theorem id_display_roundtrip :
    (∀ (id : List Nat) (sid : Nat), id.length = 16 → (∀ b ∈ id, b < 256) →
      parseTraceID (traceIDStringFrom
        (some { traceId := id, spanId := sid })) = some id) ∧
    (∀ (tid : List Nat) (v : Nat), 0 < v → v < 2 ^ 64 →
      parseSpanID (spanIDStringFrom
        (some { traceId := tid, spanId := v })) = some v) := by
  constructor
  · intro id sid hlen hbytes
    unfold traceIDStringFrom
    simp only
    rw [if_pos (by simp [isTraceIDValid, hlen])]
    unfold parseTraceID hexEncodeBytes
    rw [show (String.mk (id.reverse.flatMap fun b =>
      [hexDigitChar (b % 256 / 16), hexDigitChar (b % 16)])).data =
      id.reverse.flatMap fun b =>
        [hexDigitChar (b % 256 / 16), hexDigitChar (b % 16)] from rfl]
    rw [hexDecode_encode id.reverse
      (fun b hb => hbytes b (List.mem_reverse.mp hb))]
    dsimp only
    rw [if_pos (by simp [isTraceIDValid, hlen]), List.reverse_reverse]
  · intro tid v hpos hlt
    unfold spanIDStringFrom
    simp only
    rw [if_neg (by omega)]
    unfold parseSpanID hexPad16
    rw [show (String.mk (List.replicate (16 - (natHex v).length) '0' ++
      natHex v)).data =
      List.replicate (16 - (natHex v).length) '0' ++ natHex v from rfl]
    rw [if_neg (by
      simp only [List.isEmpty_eq_true, List.append_eq_nil]
      intro hcon
      exact natHex_ne_nil v hcon.2)]
    rw [parseUintHexGo_append]
    rw [parseUintHexGo_zeros]
    dsimp only
    have h := parseUintHexGo_natHex v 0 (by simpa using hlt)
    rw [h]
    simp

/-- Witness for C7 at a concrete trace id (16 bytes `0..15`) and span id
(`0xff`). -/
theorem id_display_roundtrip_witness :
    parseTraceID (traceIDStringFrom
      (some { traceId := [0, 1, 2, 3, 4, 5, 6, 7, 8, 9, 10, 11, 12, 13,
        14, 15], spanId := 5 })) =
      some [0, 1, 2, 3, 4, 5, 6, 7, 8, 9, 10, 11, 12, 13, 14, 15] ∧
    parseSpanID (spanIDStringFrom
      (some { traceId := [], spanId := 255 })) = some 255 :=
  ⟨id_display_roundtrip.1
      [0, 1, 2, 3, 4, 5, 6, 7, 8, 9, 10, 11, 12, 13, 14, 15] 5 (by decide)
      (by decide),
    id_display_roundtrip.2 [] 255 (by decide) (by decide)⟩

/-! ## Theorems: location filter -/

/-- Claim C8: the source's `LocationFilter.FilterLogEntry` iterates
`f.ContainsAny` inside the `ContainsAll` and `NotContains` blocks, so with
`ContainsAny = []`, `ContainsAll = ["x"]` and an empty location the code
accepts the entry while the intended semantics of §4.10 reject it. -/
theorem location_filter_wrong_slice :
    filterLogEntryLocation
      { containsAny := [], containsAll := ["x"], notContains := [] }
      (plainEntry 0) = true ∧
    filterLocationIntended
      { containsAny := [], containsAll := ["x"], notContains := [] }
      (plainEntry 0).location = false ∧
    (plainEntry 0).location = "" := by
  refine ⟨rfl, rfl, rfl⟩

/-! ## Theorems: logger context and parent isolation -/

theorem getD_append_self {α : Type} (l : List α) (x : α) (d : α) :
    (l ++ [x]).getD l.length d = x := by
  rw [List.getD_eq_getElem?_getD, List.getElem?_concat_length]
  rfl

theorem getD_append_lt {α : Type} (l l' : List α) (i : Nat) (d : α)
    (h : i < l.length) : (l ++ l').getD i d = l.getD i d := by
  rw [List.getD_eq_getElem?_getD, List.getElem?_append, if_pos h,
    ← List.getD_eq_getElem?_getD]

theorem getD_set_ne {α : Type} (l : List α) (i j : Nat) (v d : α)
    (h : i ≠ j) : (l.set i v).getD j d = l.getD j d := by
  rw [List.getD_eq_getElem?_getD, List.getElem?_set_ne h,
    ← List.getD_eq_getElem?_getD]

theorem getD_set_self {α : Type} (l : List α) (i : Nat) (v d : α)
    (h : i < l.length) : (l.set i v).getD i d = v := by
  rw [List.getD_eq_getElem?_getD, List.getElem?_set, if_pos rfl, if_pos h]
  rfl

/-- Claim C9: `StartSpan` returns a context whose `Use` yields the new
child logger; the child's attribute map is a fresh reference holding a
copy of the parent's attributes (extended by the new ones), so neither
the child's creation nor a later `SetAttrs` on the child changes the
parent's map; and `EndSpan` on the child returns the parent — while on a
span-carrying logger with no parent it returns the default logger. -/
theorem logger_context_isolation (h : LoggerHeap) (li : Nat) (name : String)
    (attrs attrs2 : List (String × Value)) (ft : List Nat) (fs : Nat)
    (dflt : Nat) (_hli : li < h.loggers.length)
    (href : (heapLogger h li).attrsRef < h.maps.length) :
    ctxUse (some (startSpanDepth h li name attrs ft fs).2) dflt =
      (startSpanDepth h li name attrs ft fs).2 ∧
    (heapLogger (startSpanDepth h li name attrs ft fs).1
        (startSpanDepth h li name attrs ft fs).2).attrsRef ≠
      (heapLogger h li).attrsRef ∧
    heapMap (startSpanDepth h li name attrs ft fs).1
        (heapLogger (startSpanDepth h li name attrs ft fs).1
          (startSpanDepth h li name attrs ft fs).2).attrsRef =
      attrSetAll (heapMap h (heapLogger h li).attrsRef) attrs ∧
    heapMap (startSpanDepth h li name attrs ft fs).1
        (heapLogger h li).attrsRef =
      heapMap h (heapLogger h li).attrsRef ∧
    heapMap (loggerSetAttrs (startSpanDepth h li name attrs ft fs).1
          (startSpanDepth h li name attrs ft fs).2 attrs2)
        (heapLogger h li).attrsRef =
      heapMap h (heapLogger h li).attrsRef ∧
    endSpanDepth (startSpanDepth h li name attrs ft fs).1
      (startSpanDepth h li name attrs ft fs).2 dflt = li ∧
    (∀ (h2 : LoggerHeap) (j : Nat), (heapLogger h2 j).parent = none →
      (heapLogger h2 j).span.isSome → endSpanDepth h2 j dflt = dflt) := by
  have hci : (startSpanDepth h li name attrs ft fs).2 = h.loggers.length :=
    rfl
  have hmaps : (startSpanDepth h li name attrs ft fs).1.maps =
      h.maps ++ [attrSetAll (heapMap h (heapLogger h li).attrsRef) attrs] :=
    rfl
  have hchildRec : heapLogger (startSpanDepth h li name attrs ft fs).1
      (startSpanDepth h li name attrs ft fs).2 =
      { parent := some li
        span := some (startSpanValue h li name ft fs)
        attrsRef := h.maps.length } := by
    show ((h.loggers ++ [_]).set h.loggers.length _).getD h.loggers.length _
      = _
    rw [getD_set_self _ _ _ _ (by simp)]
    simp only [heapLogger]
    rw [getD_append_self]
  refine ⟨rfl, ?_, ?_, ?_, ?_, ?_, ?_⟩
  · rw [hchildRec]
    intro hcon
    simp only at hcon
    omega
  · rw [hchildRec]
    show (h.maps ++ [attrSetAll (heapMap h (heapLogger h li).attrsRef)
      attrs]).getD h.maps.length [] = _
    exact getD_append_self _ _ _
  · show (h.maps ++ [_]).getD (heapLogger h li).attrsRef [] = _
    exact getD_append_lt _ _ _ _ href
  · show ((startSpanDepth h li name attrs ft fs).1.maps.set
      (heapLogger (startSpanDepth h li name attrs ft fs).1
        (startSpanDepth h li name attrs ft fs).2).attrsRef _).getD
      (heapLogger h li).attrsRef [] = _
    rw [hchildRec]
    simp only
    rw [getD_set_ne _ _ _ _ _ (by omega)]
    rw [hmaps]
    exact getD_append_lt _ _ _ _ href
  · unfold endSpanDepth
    rw [hchildRec]
  · intro h2 j hpar hspan
    show (match (heapLogger h2 j).span with
          | none => j
          | some _ =>
            match (heapLogger h2 j).parent with
            | none => dflt
            | some p => p) = dflt
    cases hsp : (heapLogger h2 j).span with
    | none => rw [hsp] at hspan; simp at hspan
    | some si =>
      dsimp only
      rw [hpar]

/-- Witness for C9 at a concrete one-logger heap. -/
theorem logger_context_isolation_witness :
    ctxUse (some (startSpanDepth demoHeap 0 "s" [] (List.replicate 16 0)
        1).2) 0 =
      (startSpanDepth demoHeap 0 "s" [] (List.replicate 16 0) 1).2 ∧
    (heapLogger (startSpanDepth demoHeap 0 "s" [] (List.replicate 16 0) 1).1
        (startSpanDepth demoHeap 0 "s" [] (List.replicate 16 0)
          1).2).attrsRef ≠
      (heapLogger demoHeap 0).attrsRef ∧
    heapMap (startSpanDepth demoHeap 0 "s" [] (List.replicate 16 0) 1).1
        (heapLogger (startSpanDepth demoHeap 0 "s" []
            (List.replicate 16 0) 1).1
          (startSpanDepth demoHeap 0 "s" [] (List.replicate 16 0)
            1).2).attrsRef =
      attrSetAll (heapMap demoHeap (heapLogger demoHeap 0).attrsRef) [] ∧
    heapMap (startSpanDepth demoHeap 0 "s" [] (List.replicate 16 0) 1).1
        (heapLogger demoHeap 0).attrsRef =
      heapMap demoHeap (heapLogger demoHeap 0).attrsRef ∧
    heapMap (loggerSetAttrs
          (startSpanDepth demoHeap 0 "s" [] (List.replicate 16 0) 1).1
          (startSpanDepth demoHeap 0 "s" [] (List.replicate 16 0) 1).2
          [("k", Value.boolValue true)])
        (heapLogger demoHeap 0).attrsRef =
      heapMap demoHeap (heapLogger demoHeap 0).attrsRef ∧
    endSpanDepth (startSpanDepth demoHeap 0 "s" [] (List.replicate 16 0)
        1).1
      (startSpanDepth demoHeap 0 "s" [] (List.replicate 16 0) 1).2 0 = 0 ∧
    (∀ (h2 : LoggerHeap) (j : Nat), (heapLogger h2 j).parent = none →
      (heapLogger h2 j).span.isSome → endSpanDepth h2 j 0 = 0) :=
  logger_context_isolation demoHeap 0 "s" [] [("k", Value.boolValue true)]
    (List.replicate 16 0) 1 0 (by decide) (by decide)

/-- Claim C6 counterexample: a record whose head size is greater than
16 MiB (`2^24` bytes) is *not* rejected by `Reader.Read`; the full frame of
a `2^24 + 4` byte payload is read back successfully. -/
theorem blob_reader_accepts_oversized_record :
    2 ^ 24 < (List.replicate (2 ^ 24 + 4) 1).length ∧
    readerRead (encodeToRawRecordBytes (List.replicate (2 ^ 24 + 4) 1) ++ []) =
      .ok (List.replicate (2 ^ 24 + 4) 1, []) := by
  constructor
  · rw [List.length_replicate]; norm_num
  · exact readerRead_encode (List.replicate (2 ^ 24 + 4) 1) []
      (by rw [List.length_replicate]; norm_num)
      (by rw [List.length_replicate]; norm_num)

end EvoLogs
